import Mathlib

/-!
Verification of `packages/applet/src/components/state/StateFieldViewer.vue`
(duowb/devtools-next).

The component's script is embedded shallowly: each `computed` and each event
handler becomes a pure Lean function of its reactive inputs.  External
collaborators from `@vue/devtools-kit`, `@vue/devtools-shared` and the
composables (`formatInspectorStateValue`, `toEdit`, `toSubmit`,
`getInspectorStateValueType`, `sortByKey`, `useStateEditor`,
`useStateEditorDrafting`) are not part of the source tree; they are either
taken as function parameters (the codecs and the value formatter, whose
internals no claim depends on) or modelled from the specification (the
classifier, the lexical sort, the session/draft state transitions).
-/

namespace StateFieldViewer

/-- A JavaScript-like runtime value: primitives, arrays and plain objects
(an object is its list of own enumerable string keys with their values, in
iteration order).  Custom inspector states are plain objects carrying a
`_custom` key. -/
inductive JSValue where
  | null
  | undefined
  | bool (b : Bool)
  | num (n : Int)
  | str (s : String)
  | arr (elems : List JSValue)
  | obj (entries : List (String × JSValue))
deriving Repr, Inhabited

/-- JavaScript property read `v?.k` / `v[k]`: first matching own key of an
object, `undefined` otherwise. -/
def getProp : JSValue → String → JSValue
  | .obj entries, k =>
    match entries.find? (fun e => e.1 == k) with
    | some e => e.2
    | none => .undefined
  | _, _ => .undefined

/-- JavaScript truthiness. -/
def truthy : JSValue → Bool
  | .null => false
  | .undefined => false
  | .bool b => b
  | .num n => n != 0
  | .str s => s != ""
  | .arr _ => true
  | .obj _ => true

/-- JavaScript `typeof` on the embedded values. -/
def typeof : JSValue → String
  | .null => "object"
  | .undefined => "undefined"
  | .bool _ => "boolean"
  | .num _ => "number"
  | .str _ => "string"
  | .arr _ => "object"
  | .obj _ => "object"

mutual

/-- JavaScript string coercion, as used by template literals. -/
def jsStringOf : JSValue → String
  | .null => "null"
  | .undefined => "undefined"
  | .bool b => toString b
  | .num n => toString n
  | .str s => s
  | .arr elems => String.intercalate "," (jsStringOfList elems)
  | .obj _ => "[object Object]"

/-- String coercion of each element of a list of values. -/
def jsStringOfList : List JSValue → List String
  | [] => []
  | x :: xs => jsStringOf x :: jsStringOfList xs

end

/-- JavaScript `a || b`. -/
def jsOr (a b : JSValue) : JSValue := if truthy a then a else b

/-- Lexicographic (code-point) comparison of character lists. -/
def charsLe : List Char → List Char → Bool
  | [], _ => true
  | _ :: _, [] => false
  | a :: as, b :: bs => if a = b then charsLe as bs else decide (a < b)

/-- Lexicographic (code-point) comparison of strings. -/
def strLe (a b : String) : Bool := charsLe a.data b.data

/-- JavaScript `s.split(sep)` for a one-character separator: accumulator-based
scan over the characters. -/
def splitOnCharAux (sep : Char) : List Char → List Char → List String
  | [], acc => [String.mk acc.reverse]
  | c :: cs, acc =>
    if c = sep then String.mk acc.reverse :: splitOnCharAux sep cs []
    else splitOnCharAux sep cs (c :: acc)

/-- JavaScript `s.split(sep)` for a one-character separator (`key.split('.')`
in the component). -/
def jsSplit (s : String) (sep : Char) : List String := splitOnCharAux sep s.data []

/-- Modelled from the spec: `getInspectorStateValueType` from
`@vue/devtools-kit` (not under the source tree).  §4.1: "A value is `custom`
if it carries a recognized custom-state wrapper; `array`/`object` otherwise
structurally; else `primitive`." -/
def getInspectorStateValueType (v : JSValue) : String :=
  if truthy (getProp v "_custom") then "custom"
  else match v with
    | .arr _ => "array"
    | .obj _ => "object"
    | _ => "primitive"

/-- The `InspectorState` prop `props.data`, restricted to the fields the
component's script reads. -/
structure InspectorState where
  key : String
  value : JSValue
  editable : Bool
  stateType : String
  stateTypeName : Option String
deriving Repr

/-- The result of the external `getRaw` (spec §3 "Raw Extraction"):
`{ value, inherit, customType }`.  The component only consumes this record,
so it is an input of the embedded computeds.  `inherit` is, per the spec,
"a bag of flags" spread into every child (it never carries the explicitly
set `key`/`value`/`editable`/`creating` fields, which the component writes
itself). -/
structure RawExtraction where
  value : JSValue
  inheritFlags : List (String × JSValue)
  customType : Option String
deriving Repr

/-- One element of `normalizedDisplayedChildren`: the object literal
`{ key, value, ...inherit, editable, creating }` built for each child. -/
structure ChildNode where
  key : String
  value : JSValue
  inherited : List (String × JSValue)
  editable : Bool
  creating : Bool
deriving Repr

/-- Order on child nodes used by the lexical sort: compare the `key` field. -/
def childLE (a b : ChildNode) : Prop := strLe a.key b.key = true

instance : DecidableRel childLE := fun a b => inferInstanceAs (Decidable (strLe a.key b.key = true))

instance : IsTotal ChildNode childLE :=
  ⟨fun a b => by
    unfold childLE strLe
    suffices h : ∀ l1 l2 : List Char, charsLe l1 l2 = true ∨ charsLe l2 l1 = true from
      h a.key.data b.key.data
    intro l1
    induction l1 with
    | nil => intro l2; left; rfl
    | cons c cs ih =>
      intro l2
      cases l2 with
      | nil => right; rfl
      | cons d ds =>
        by_cases hcd : c = d
        · subst hcd
          simpa only [charsLe, if_pos rfl] using ih ds
        · rcases lt_trichotomy c d with hlt | heq | hgt
          · left; simp [charsLe, hcd, hlt]
          · exact absurd heq hcd
          · right; simp [charsLe, Ne.symm hcd, hgt]⟩

instance : IsTrans ChildNode childLE :=
  ⟨fun a b c hab hbc => by
    unfold childLE strLe at *
    revert hab hbc
    suffices h : ∀ l1 l2 l3 : List Char,
        charsLe l1 l2 = true → charsLe l2 l3 = true → charsLe l1 l3 = true from
      fun hab hbc => h a.key.data b.key.data c.key.data hab hbc
    intro l1
    induction l1 with
    | nil => intro l2 l3 _ _; rfl
    | cons x xs ih =>
      intro l2 l3 h12 h23
      cases l2 with
      | nil => simp [charsLe] at h12
      | cons y ys =>
        cases l3 with
        | nil => simp [charsLe] at h23
        | cons z zs =>
          by_cases hxy : x = y <;> by_cases hyz : y = z
          · subst hxy; subst hyz
            simp only [charsLe, if_pos rfl] at h12 h23 ⊢
            exact ih ys zs h12 h23
          · subst hxy
            simp only [charsLe, if_pos rfl] at h12
            simp only [charsLe, if_neg hyz, decide_eq_true_eq] at h23
            simp [charsLe, hyz, h23]
          · subst hyz
            simp only [charsLe, if_neg hxy, decide_eq_true_eq] at h12
            simp [charsLe, hxy, h12]
          · simp only [charsLe, if_neg hxy, decide_eq_true_eq] at h12
            simp only [charsLe, if_neg hyz, decide_eq_true_eq] at h23
            have hxz : x < z := lt_trans h12 h23
            simp [charsLe, ne_of_lt hxz, hxz]⟩

/-- Modelled from the spec: `sortByKey` from `@vue/devtools-shared` (not under
the source tree).  §4.2: children "are sorted by key (lexical)"; JavaScript
`Array.prototype.sort` is stable, so a stable insertion sort by the `key`
field. -/
def sortByKey (xs : List ChildNode) : List ChildNode := List.insertionSort childLE xs

/-- `STATE_FIELDS_LIMIT_SIZE` (line 23). -/
def STATE_FIELDS_LIMIT_SIZE : Nat := 30

/-- The `fieldsCount` computed (lines 39-47). -/
def fieldsCount (raw : RawExtraction) : Nat :=
  match raw.value with
  | .arr elems => elems.length
  | .obj entries => entries.length
  | _ => 0

/-- The "show more" button's visibility condition `fieldsCount > limit`
(template line 214). -/
def showMoreVisible (raw : RawExtraction) (limit : Nat) : Bool :=
  decide (fieldsCount raw > limit)

/-- One "show more" click: `limit += STATE_FIELDS_LIMIT_SIZE` (template
line 214). -/
def showMoreStep (limit : Nat) : Nat := limit + STATE_FIELDS_LIMIT_SIZE

/-- The children built in the array branch of `normalizedDisplayedChildren`
(lines 88-97): `value.slice(0, limit).map((item, i) => ({...}))`. -/
def arrChildren (data : InspectorState) (raw : RawExtraction) (elems : List JSValue)
    (limit : Nat) : List ChildNode :=
  (elems.take limit).enum.map fun p =>
    { key := data.key ++ "." ++ toString p.1
      value := p.2
      inherited := raw.inheritFlags
      editable := data.editable && !(raw.customType == some "set")
      creating := false }

/-- The children built in the object branch of `normalizedDisplayedChildren`
before the optional sort (lines 99-105):
`Object.keys(value).slice(0, limit).map(key => ({...}))`. -/
def plainObjChildren (data : InspectorState) (raw : RawExtraction)
    (entries : List (String × JSValue)) (limit : Nat) : List ChildNode :=
  ((entries.map Prod.fst).take limit).map fun k =>
    { key := data.key ++ "." ++ k
      value := getProp raw.value k
      inherited := raw.inheritFlags
      editable := data.editable && !(raw.customType == some "set")
      creating := false }

/-- The `normalizedDisplayedChildren` computed (lines 82-111).  `ty` is the
`type` computed (line 27), `raw` the `raw` computed (line 28), `limit` the
`limit` ref.  The final reference-identity guard
`displayedChildren === props.data.value ? [] : displayedChildren` (line 110)
compares a freshly allocated array against the prop by JavaScript object
identity, which is always false; it is therefore the identity here. -/
def normalizedDisplayedChildren (data : InspectorState) (raw : RawExtraction)
    (ty : String) (limit : Nat) : List ChildNode :=
  match raw.value with
  | .arr elems => arrChildren data raw elems limit
  | .obj entries =>
    let displayedChildren := plainObjChildren data raw entries limit
    if ty ≠ "custom" then sortByKey displayedChildren else displayedChildren
  | _ => []

/-- The `normalizedDisplayedValue` computed (lines 59-79).  `fmt` stands for
the external `formatInspectorStateValue` from `@vue/devtools-kit` (line 26),
whose output no branch here constrains.  Note that line 66 reads
`fields.abstract` directly off `props.data.value` (cast to
`InspectorCustomState['_custom']`), not off `props.data.value._custom`. -/
def normalizedDisplayedValue (fmt : JSValue → String) (data : InspectorState) : String :=
  let displayedValue := fmt data.value
  let ty := getInspectorStateValueType data.value
  let extraDisplayedValue :=
    jsOr (getProp (getProp data.value "_custom") "stateTypeName")
      (match data.stateTypeName with | some s => .str s | none => .undefined)
  if (match extraDisplayedValue with
      | .str s => ["Reactive"].contains s
      | _ => false) then
    jsStringOf extraDisplayedValue
  else if truthy (getProp (getProp data.value "fields") "abstract") then
    ""
  else
    let v := if ty == "custom" && !truthy (getProp (getProp data.value "_custom") "type") then
        "\"" ++ displayedValue ++ "\""
      else if displayedValue == "" then "\"\"" else displayedValue
    let result := "<span class=\"" ++ ty ++ "-state-type\">" ++ v ++ "</span>"
    if truthy extraDisplayedValue then
      result ++ " <span class=\"text-gray-500\">(" ++ jsStringOf extraDisplayedValue ++ ")</span>"
    else result

/-- The session context supplied by `useStateEditorContext` (lines 120,
139, 167): only `inspectorId` (and the `nodeId` from `useStateEditor`) appear
in the submitted patches. -/
structure SessionCtx where
  inspectorId : String
  nodeId : String
deriving Repr

/-- The shared editing-session state from `useStateEditor` (line 123):
`{ editingType, editing, editingText }`. -/
structure EditorSession where
  editingType : String
  editing : Bool
  editingText : String
deriving Repr, DecidableEq

/-- The inner `state` field of an `InspectorStateEditorPayload`. -/
structure PatchState where
  newKey : Option String
  type : String
  value : JSValue
deriving Repr

/-- The payload handed to `editInspectorState` (the external edit
transport). -/
structure Patch where
  path : List String
  inspectorId : String
  type : String
  nodeId : String
  state : PatchState
deriving Repr

/-- The component's `watch(() => editing.value, ...)` effect (lines 125-133):
entering edit snapshots the raw value through the type-aware encoder
`toEdit` (a parameter `te`, external codec); leaving edit clears the text. -/
def watchEditing (te : JSValue → Option String → String) (raw : RawExtraction)
    (v : Bool) (s : EditorSession) : EditorSession :=
  if v then { s with editingText := te raw.value raw.customType }
  else { s with editingText := "" }

/-- Modelled from the spec: `toggleEditing` from the external `useStateEditor`
composable flips the `editing` flag (§4.4 `Viewing -> Editing -> ... ->
Viewing`); the component's watcher above then reacts to the change. -/
def toggleEditingStep (te : JSValue → Option String → String) (raw : RawExtraction)
    (s : EditorSession) : EditorSession :=
  watchEditing te raw (!s.editing) { s with editing := !s.editing }

/-- The `submit` handler (lines 135-149).  `ts` stands for the external
type-aware decoder `toSubmit`; its second argument is the optional custom
type tag (`toSubmit(editingText.value, raw.value.customType)`).  The first
component is the list of payloads handed to `editInspectorState` during the
call; the second is the editor session afterwards. -/
def submit (ts : String → Option String → JSValue) (te : JSValue → Option String → String)
    (ctx : SessionCtx) (data : InspectorState) (raw : RawExtraction) (s : EditorSession) :
    List Patch × EditorSession :=
  ([{ path := jsSplit data.key '.'
      inspectorId := ctx.inspectorId
      type := data.stateType
      nodeId := ctx.nodeId
      state := { newKey := none
                 type := s.editingType
                 value := ts s.editingText raw.customType } }],
   toggleEditingStep te raw s)

/-- The shared drafting state from `useStateEditorDrafting` (line 152):
`draftingNewProp` is `{ enable, key, value }`, with `value` the text of the
draft input editor. -/
structure DraftState where
  enable : Bool
  key : String
  value : String
deriving Repr, DecidableEq

/-- Modelled from the spec: `resetDrafting` from the external
`useStateEditorDrafting` composable clears the single shared draft slot
(§4.4 "Either submit or cancel clears the single shared draft slot"). -/
def resetDrafting : DraftState := { enable := false, key := "", value := "" }

/-- The `submitDrafting` handler (lines 162-178).  The decoder `ts` is called
on the draft text with no custom-type argument (`toSubmit(...)` with a single
argument), and the inner `state.type` is `typeof toSubmit(...)`. -/
def submitDrafting (ts : String → Option String → JSValue) (ctx : SessionCtx)
    (data : InspectorState) (draft : DraftState) : List Patch × DraftState :=
  ([{ path := jsSplit data.key '.' ++ [draft.key]
      inspectorId := ctx.inspectorId
      type := data.stateType
      nodeId := ctx.nodeId
      state := { newKey := some draft.key
                 type := typeof (ts draft.value none)
                 value := ts draft.value none } }],
   resetDrafting)

/-- The draft editor's cancel handler (template line 224,
`@cancel="resetDrafting"`): no payload is emitted, the draft slot is
cleared. -/
def cancelDrafting (_draft : DraftState) : List Patch × DraftState :=
  ([], resetDrafting)

/-- The full presentation output recomputed on a render pass: the value
markup together with the normalized children. -/
def renderPass (fmt : JSValue → String) (data : InspectorState) (raw : RawExtraction)
    (ty : String) (limit : Nat) : String × List ChildNode :=
  (normalizedDisplayedValue fmt data, normalizedDisplayedChildren data raw ty limit)

/-! Helper lemmas about the normalizer, shared by the claims below. -/

theorem mem_arrChildren_iff {data : InspectorState} {raw : RawExtraction}
    {elems : List JSValue} {limit : Nat} {c : ChildNode} :
    c ∈ arrChildren data raw elems limit ↔
      ∃ p ∈ (elems.take limit).enum,
        c = { key := data.key ++ "." ++ toString p.1
              value := p.2
              inherited := raw.inheritFlags
              editable := data.editable && !(raw.customType == some "set")
              creating := false } := by
  unfold arrChildren
  rw [List.mem_map]
  constructor
  · rintro ⟨p, hp, rfl⟩; exact ⟨p, hp, rfl⟩
  · rintro ⟨p, hp, rfl⟩; exact ⟨p, hp, rfl⟩

theorem mem_plainObjChildren_iff {data : InspectorState} {raw : RawExtraction}
    {entries : List (String × JSValue)} {limit : Nat} {c : ChildNode} :
    c ∈ plainObjChildren data raw entries limit ↔
      ∃ k ∈ (entries.map Prod.fst).take limit,
        c = { key := data.key ++ "." ++ k
              value := getProp raw.value k
              inherited := raw.inheritFlags
              editable := data.editable && !(raw.customType == some "set")
              creating := false } := by
  unfold plainObjChildren
  rw [List.mem_map]
  constructor
  · rintro ⟨k, hk, rfl⟩; exact ⟨k, hk, rfl⟩
  · rintro ⟨k, hk, rfl⟩; exact ⟨k, hk, rfl⟩

theorem mem_normalized_cases {data : InspectorState} {raw : RawExtraction}
    {ty : String} {limit : Nat} {c : ChildNode}
    (h : c ∈ normalizedDisplayedChildren data raw ty limit) :
    (∃ elems, raw.value = .arr elems ∧ c ∈ arrChildren data raw elems limit) ∨
    (∃ entries, raw.value = .obj entries ∧ c ∈ plainObjChildren data raw entries limit) := by
  unfold normalizedDisplayedChildren at h
  cases hv : raw.value with
  | arr elems =>
    rw [hv] at h
    exact Or.inl ⟨elems, rfl, h⟩
  | obj entries =>
    rw [hv] at h
    simp only at h
    refine Or.inr ⟨entries, rfl, ?_⟩
    split at h
    · exact (List.perm_insertionSort childLE _).mem_iff.mp h
    · exact h
  | null => rw [hv] at h; simp at h
  | undefined => rw [hv] at h; simp at h
  | bool b => rw [hv] at h; simp at h
  | num n => rw [hv] at h; simp at h
  | str s => rw [hv] at h; simp at h

/-- C1: when an in-place edit of an existing field is submitted, the core
decodes the editing text with the type-aware decoder `toSubmit` keyed by the
node's `customType`, emits exactly one patch whose `path` is the node's key
split on `'.'`, whose `newKey` is null and whose `type` is the node's
preserved `stateType`, and then transitions back to viewing with the editing
text cleared to the empty string. -/
theorem c1_submit_patch_and_reset (ts : String → Option String → JSValue)
    (te : JSValue → Option String → String) (ctx : SessionCtx)
    (data : InspectorState) (raw : RawExtraction) (s : EditorSession)
    (h : s.editing = true) :
    (submit ts te ctx data raw s).1.length = 1 ∧
    (∀ p ∈ (submit ts te ctx data raw s).1,
      p.path = jsSplit data.key '.' ∧
      p.state.newKey = none ∧
      p.type = data.stateType ∧
      p.state.value = ts s.editingText raw.customType) ∧
    (submit ts te ctx data raw s).2.editing = false ∧
    (submit ts te ctx data raw s).2.editingText = "" := by
  refine ⟨rfl, ?_, ?_, ?_⟩
  · intro p hp
    rw [submit, List.mem_singleton] at hp
    subst hp
    exact ⟨rfl, rfl, rfl, rfl⟩
  · simp [submit, toggleEditingStep, watchEditing, h]
  · simp [submit, toggleEditingStep, watchEditing, h]

/-- C1 witness: a concrete in-place edit submission on key `"a.b"`. -/
theorem c1_submit_patch_and_reset_witness :
    ((⟨"string", true, "42"⟩ : EditorSession).editing = true) ∧
    (submit (fun t _ => .str t) (fun _ _ => "") ⟨"app", "n1"⟩
      ⟨"a.b", .num 1, true, "object", none⟩ ⟨.num 1, [], none⟩
      ⟨"string", true, "42"⟩).1.length = 1 ∧
    (submit (fun t _ => .str t) (fun _ _ => "") ⟨"app", "n1"⟩
      ⟨"a.b", .num 1, true, "object", none⟩ ⟨.num 1, [], none⟩
      ⟨"string", true, "42"⟩).2.editingText = "" := by
  have h := c1_submit_patch_and_reset (fun t _ => .str t) (fun _ _ => "")
    ⟨"app", "n1"⟩ ⟨"a.b", .num 1, true, "object", none⟩ ⟨.num 1, [], none⟩
    ⟨"string", true, "42"⟩ rfl
  exact ⟨rfl, h.1, h.2.2.2⟩

/-- C2: a draft submission on a parent node with key `"a.b"` and drafted key
`"c"` emits exactly one patch with path `["a","b","c"]` and `newKey = "c"`,
its `state.type` being the JavaScript `typeof` of the decoded draft value
(not the parent's declared type); both submitting and cancelling clear the
shared draft slot. -/
theorem c2_submitDrafting_patch (ts : String → Option String → JSValue)
    (ctx : SessionCtx) (data : InspectorState) (draft : DraftState)
    (hk : data.key = "a.b") (hd : draft.key = "c") :
    (submitDrafting ts ctx data draft).1.map Patch.path = [["a", "b", "c"]] ∧
    (submitDrafting ts ctx data draft).1.map (fun p => p.state.newKey) = [some "c"] ∧
    (submitDrafting ts ctx data draft).1.map (fun p => p.state.type) =
      [typeof (ts draft.value none)] ∧
    (submitDrafting ts ctx data draft).2 = resetDrafting ∧
    (cancelDrafting draft).2 = resetDrafting := by
  refine ⟨?_, ?_, rfl, rfl, rfl⟩
  · simp only [submitDrafting, List.map_cons, List.map_nil, hk, hd]
    rfl
  · simp only [submitDrafting, List.map_cons, List.map_nil, hd]

/-- C2 witness: a concrete draft submission with parent key `"a.b"` and
drafted key `"c"`. -/
theorem c2_submitDrafting_patch_witness :
    (submitDrafting (fun t _ => .str t) ⟨"app", "n1"⟩
      ⟨"a.b", .obj [], true, "object", none⟩ ⟨true, "c", "hello"⟩).1.map Patch.path =
      [["a", "b", "c"]] ∧
    (submitDrafting (fun t _ => .str t) ⟨"app", "n1"⟩
      ⟨"a.b", .obj [], true, "object", none⟩ ⟨true, "c", "hello"⟩).1.map
        (fun p => p.state.type) = ["string"] ∧
    (submitDrafting (fun t _ => .str t) ⟨"app", "n1"⟩
      ⟨"a.b", .obj [], true, "object", none⟩ ⟨true, "c", "hello"⟩).2.enable = false := by
  have h := c2_submitDrafting_patch (fun t _ => .str t) ⟨"app", "n1"⟩
    ⟨"a.b", .obj [], true, "object", none⟩ ⟨true, "c", "hello"⟩ rfl rfl
  exact ⟨h.1, h.2.2.1, by rw [h.2.2.2.1]; rfl⟩

/-- C9: normalization and formatting are deterministic and side-effect free:
recomputing the render output from a structurally identical snapshot, raw
extraction, classification and limit yields a structurally identical result,
and the computation returns only the presentation pair, leaving the node
untouched. -/
theorem c9_render_deterministic (fmt : JSValue → String)
    (d1 d2 : InspectorState) (r1 r2 : RawExtraction) (ty : String) (limit : Nat)
    (hd : d1 = d2) (hr : r1 = r2) :
    renderPass fmt d1 r1 ty limit = renderPass fmt d2 r2 ty limit := by
  rw [hd, hr]

/-- C9 witness: two recomputations at a concrete snapshot agree. -/
theorem c9_render_deterministic_witness :
    renderPass (fun _ => "1") ⟨"k", .num 1, true, "object", none⟩
      ⟨.num 1, [], none⟩ "primitive" 30 =
    renderPass (fun _ => "1") ⟨"k", .num 1, true, "object", none⟩
      ⟨.num 1, [], none⟩ "primitive" 30 :=
  c9_render_deterministic (fun _ => "1") _ _ _ _ "primitive" 30 rfl rfl

/-- C10: the drafted value is decoded by calling `toSubmit` on the draft text
alone (no custom-type argument), whereas an in-place edit submission passes
`raw.customType` to `toSubmit`; type-directed decoding is never applied to
drafted values. -/
theorem c10_decoder_arguments (ts : String → Option String → JSValue)
    (te : JSValue → Option String → String) (ctx : SessionCtx)
    (data : InspectorState) (raw : RawExtraction) (s : EditorSession)
    (draft : DraftState) :
    (submitDrafting ts ctx data draft).1.map (fun p => p.state.value) =
      [ts draft.value none] ∧
    (submit ts te ctx data raw s).1.map (fun p => p.state.value) =
      [ts s.editingText raw.customType] :=
  ⟨rfl, rfl⟩

/-- C3: for a non-array object raw value on a node that is not custom-tagged,
the normalized children are sorted lexically by key and are a permutation of
the truncated children in iteration order; for a custom-tagged object the
children keep key iteration order; for an array the children keep index
order (their values are exactly the first `limit` elements in order). -/
theorem c3_children_ordering (data : InspectorState) (raw : RawExtraction)
    (ty : String) (limit : Nat) :
    (∀ entries, raw.value = .obj entries → ty ≠ "custom" →
      List.Sorted childLE (normalizedDisplayedChildren data raw ty limit) ∧
      List.Perm (normalizedDisplayedChildren data raw ty limit)
        (plainObjChildren data raw entries limit)) ∧
    (∀ entries, raw.value = .obj entries → ty = "custom" →
      (normalizedDisplayedChildren data raw ty limit).map ChildNode.key =
        ((entries.map Prod.fst).take limit).map (fun k => data.key ++ "." ++ k)) ∧
    (∀ elems, raw.value = .arr elems →
      (normalizedDisplayedChildren data raw ty limit).map ChildNode.value =
        elems.take limit) := by
  refine ⟨?_, ?_, ?_⟩
  · intro entries hv hty
    simp only [normalizedDisplayedChildren, hv, sortByKey]
    rw [if_pos hty]
    exact ⟨List.sorted_insertionSort childLE _, List.perm_insertionSort childLE _⟩
  · intro entries hv hty
    simp only [normalizedDisplayedChildren, hv]
    rw [if_neg (fun h => h hty)]
    simp only [plainObjChildren, List.map_map, List.map_take]
    rfl
  · intro elems hv
    simp only [normalizedDisplayedChildren, hv, arrChildren, List.map_map]
    exact List.enum_map_snd _

/-- C3 witness: a plain (non-custom) object with keys in order `b`, `a`
normalizes to children `a` then `b`. -/
theorem c3_children_ordering_witness :
    (("object" : String) ≠ "custom") ∧
    List.Sorted childLE (normalizedDisplayedChildren
      ⟨"k", .obj [("b", .num 1), ("a", .num 2)], true, "object", none⟩
      ⟨.obj [("b", .num 1), ("a", .num 2)], [], none⟩ "object" 30) ∧
    (normalizedDisplayedChildren
      ⟨"k", .obj [("b", .num 1), ("a", .num 2)], true, "object", none⟩
      ⟨.obj [("b", .num 1), ("a", .num 2)], [], none⟩ "object" 30).map
        ChildNode.key = ["k.a", "k.b"] := by
  refine ⟨by decide, ?_, by decide⟩
  exact ((c3_children_ordering
    ⟨"k", .obj [("b", .num 1), ("a", .num 2)], true, "object", none⟩
    ⟨.obj [("b", .num 1), ("a", .num 2)], [], none⟩ "object" 30).1
    [("b", .num 1), ("a", .num 2)] rfl (by decide)).1

/-- C4: an array raw value of 45 elements with the default limit 30 yields
exactly 30 normalized children while `fieldsCount` reports 45 (15 beyond the
limit); the show-more affordance is shown exactly when `fieldsCount > limit`;
after one show-more step the limit is 60 and all 45 elements are shown. -/
theorem c4_truncation_and_show_more (data : InspectorState) (raw : RawExtraction)
    (ty : String) (elems : List JSValue) (hv : raw.value = .arr elems)
    (hlen : elems.length = 45) :
    (normalizedDisplayedChildren data raw ty STATE_FIELDS_LIMIT_SIZE).length = 30 ∧
    fieldsCount raw = 45 ∧
    fieldsCount raw - (normalizedDisplayedChildren data raw ty STATE_FIELDS_LIMIT_SIZE).length = 15 ∧
    (∀ l : Nat, showMoreVisible raw l = true ↔ fieldsCount raw > l) ∧
    showMoreVisible raw STATE_FIELDS_LIMIT_SIZE = true ∧
    showMoreStep STATE_FIELDS_LIMIT_SIZE = 60 ∧
    (normalizedDisplayedChildren data raw ty (showMoreStep STATE_FIELDS_LIMIT_SIZE)).length = 45 ∧
    showMoreVisible raw (showMoreStep STATE_FIELDS_LIMIT_SIZE) = false := by
  have h30 : (normalizedDisplayedChildren data raw ty STATE_FIELDS_LIMIT_SIZE).length = 30 := by
    simp only [normalizedDisplayedChildren, hv, arrChildren, List.length_map,
      List.enum_length, List.length_take, hlen]
    rfl
  have h60 : (normalizedDisplayedChildren data raw ty (showMoreStep STATE_FIELDS_LIMIT_SIZE)).length = 45 := by
    simp only [normalizedDisplayedChildren, hv, arrChildren, List.length_map,
      List.enum_length, List.length_take, hlen]
    rfl
  have hc : fieldsCount raw = 45 := by simp [fieldsCount, hv, hlen]
  refine ⟨h30, hc, by rw [hc, h30], ?_, ?_, rfl, h60, ?_⟩
  · intro l; simp [showMoreVisible]
  · simp [showMoreVisible, hc, STATE_FIELDS_LIMIT_SIZE]
  · simp [showMoreVisible, hc, showMoreStep, STATE_FIELDS_LIMIT_SIZE]

/-- C4 witness: a concrete 45-element array at the default limit. -/
theorem c4_truncation_and_show_more_witness :
    ((JSValue.arr (List.replicate 45 .null) : JSValue) = .arr (List.replicate 45 .null)) ∧
    (List.replicate 45 (JSValue.null)).length = 45 ∧
    (normalizedDisplayedChildren ⟨"k", .arr (List.replicate 45 .null), true, "object", none⟩
      ⟨.arr (List.replicate 45 .null), [], none⟩ "array" STATE_FIELDS_LIMIT_SIZE).length = 30 ∧
    (normalizedDisplayedChildren ⟨"k", .arr (List.replicate 45 .null), true, "object", none⟩
      ⟨.arr (List.replicate 45 .null), [], none⟩ "array"
        (showMoreStep STATE_FIELDS_LIMIT_SIZE)).length = 45 := by
  have h := c4_truncation_and_show_more
    ⟨"k", .arr (List.replicate 45 .null), true, "object", none⟩
    ⟨.arr (List.replicate 45 .null), [], none⟩ "array"
    (List.replicate 45 .null) rfl (by decide)
  exact ⟨rfl, by decide, h.1, h.2.2.2.2.2.2.1⟩

/-- C5: every normalized child's `editable` flag equals the parent's
`editable` AND NOT the raw custom type being `"set"`; in particular children
of a `"set"`-typed node are never editable even under an editable parent. -/
theorem c5_child_editable (data : InspectorState) (raw : RawExtraction)
    (ty : String) (limit : Nat) (c : ChildNode)
    (h : c ∈ normalizedDisplayedChildren data raw ty limit) :
    c.editable = (data.editable && !(raw.customType == some "set")) := by
  rcases mem_normalized_cases h with ⟨elems, _, hm⟩ | ⟨entries, _, hm⟩
  · rcases mem_arrChildren_iff.mp hm with ⟨p, _, rfl⟩
    rfl
  · rcases mem_plainObjChildren_iff.mp hm with ⟨k, _, rfl⟩
    rfl

/-- C5 witness: a `"set"`-typed container under an editable parent yields an
uneditable child. -/
theorem c5_child_editable_witness :
    ((⟨"k.a", .num 1, [], false, false⟩ : ChildNode) ∈
      normalizedDisplayedChildren ⟨"k", .obj [("a", .num 1)], true, "object", none⟩
        ⟨.obj [("a", .num 1)], [], some "set"⟩ "custom" 30) ∧
    (⟨"k.a", .num 1, [], false, false⟩ : ChildNode).editable = false := by
  have hmem : (⟨"k.a", .num 1, [], false, false⟩ : ChildNode) ∈
      normalizedDisplayedChildren ⟨"k", .obj [("a", .num 1)], true, "object", none⟩
        ⟨.obj [("a", .num 1)], [], some "set"⟩ "custom" 30 :=
    List.mem_singleton_self _
  exact ⟨hmem, c5_child_editable _ _ _ _ _ hmem⟩

/-- C6: for every raw container value, each normalized child's key is exactly
the parent's key, a dot, and the child's own property key (or element index
for arrays); no key is omitted other than by the truncation limit, and the
parent key is a strict prefix of every child key. -/
theorem c6_child_key_structure (data : InspectorState) (raw : RawExtraction)
    (ty : String) (limit : Nat) :
    (∀ c ∈ normalizedDisplayedChildren data raw ty limit,
      (∃ s, c.key = data.key ++ "." ++ s) ∧ data.key.length < c.key.length) ∧
    (∀ entries, raw.value = .obj entries →
      List.Perm ((normalizedDisplayedChildren data raw ty limit).map ChildNode.key)
        (((entries.map Prod.fst).take limit).map (fun k => data.key ++ "." ++ k))) ∧
    (∀ elems, raw.value = .arr elems →
      (normalizedDisplayedChildren data raw ty limit).map ChildNode.key =
        (List.range (min limit elems.length)).map
          (fun i => data.key ++ "." ++ toString i)) := by
  have hdot : (".").length = 1 := rfl
  refine ⟨?_, ?_, ?_⟩
  · intro c h
    rcases mem_normalized_cases h with ⟨elems, _, hm⟩ | ⟨entries, _, hm⟩
    · rcases mem_arrChildren_iff.mp hm with ⟨p, _, rfl⟩
      refine ⟨⟨toString p.1, rfl⟩, ?_⟩
      simp only [String.length_append, hdot]
      omega
    · rcases mem_plainObjChildren_iff.mp hm with ⟨k, _, rfl⟩
      refine ⟨⟨k, rfl⟩, ?_⟩
      simp only [String.length_append, hdot]
      omega
  · intro entries hv
    have hmap : (plainObjChildren data raw entries limit).map ChildNode.key =
        ((entries.map Prod.fst).take limit).map (fun k => data.key ++ "." ++ k) := by
      simp only [plainObjChildren, List.map_map, List.map_take]
      rfl
    rw [← hmap]
    simp only [normalizedDisplayedChildren, hv, sortByKey]
    split
    · exact (List.perm_insertionSort childLE _).map _
    · exact List.Perm.refl _
  · intro elems hv
    rw [show min limit elems.length = (elems.take limit).length from
      (List.length_take _ _).symm, ← List.enum_map_fst (elems.take limit), List.map_map]
    simp only [normalizedDisplayedChildren, hv, arrChildren, List.map_map]
    rfl

/-- C6 witness: concrete child keys under parent key `"p.q"`. -/
theorem c6_child_key_structure_witness :
    ((⟨"p.q.x", .num 7, [], true, false⟩ : ChildNode) ∈
      normalizedDisplayedChildren ⟨"p.q", .obj [("x", .num 7)], true, "object", none⟩
        ⟨.obj [("x", .num 7)], [], none⟩ "object" 30) ∧
    (∃ s, ("p.q.x" : String) = "p.q" ++ "." ++ s) ∧
    ("p.q" : String).length < ("p.q.x" : String).length := by
  have hmem : (⟨"p.q.x", .num 7, [], true, false⟩ : ChildNode) ∈
      normalizedDisplayedChildren ⟨"p.q", .obj [("x", .num 7)], true, "object", none⟩
        ⟨.obj [("x", .num 7)], [], none⟩ "object" 30 :=
    List.mem_singleton_self _
  have h := (c6_child_key_structure ⟨"p.q", .obj [("x", .num 7)], true, "object", none⟩
    ⟨.obj [("x", .num 7)], [], none⟩ "object" 30).1 _ hmem
  exact ⟨hmem, h.1, h.2⟩

/-- C7 exhibit: a custom-wrapped value whose wrapper marks its `fields` as
`abstract` still renders a non-empty, type-tagged value span, because line 66
reads `fields` directly off `props.data.value` instead of off
`props.data.value._custom` as the neighbouring lines (34, 61, 71) do. -/
theorem c7_abstract_fields_ignored :
    (normalizedDisplayedValue (fun _ => "v")
      ⟨"k", .obj [("_custom", .obj [("type", .str "component"),
        ("fields", .obj [("abstract", .bool true)])])], true, "object", none⟩ =
      "<span class=\"custom-state-type\">v</span>") ∧
    (normalizedDisplayedValue (fun _ => "v")
      ⟨"k", .obj [("_custom", .obj [("type", .str "component"),
        ("fields", .obj [("abstract", .bool true)])])], true, "object", none⟩ ≠ "") :=
  ⟨by decide, by decide⟩

end StateFieldViewer
